import Mathlib

/-!
# Verification of the batgrl/nurses_2 core against its specification

Shallow embedding of the widget-tree compositor, geometry, buffer
resize/normalization, event dispatch, click classification, and the VT100
input decoder of the `nurses_2` package, together with theorems settling
the specification claims about them.

Source files embedded:
* `nurses_2/widgets/widget.py` (`overlapping_region`, `Widget.render`,
  `Widget.resize`, `Widget.normalize_canvas`, `Widget.dispatch_click`)
* `nurses_2/widgets/behaviors/focus_behavior.py` (`FocusBehavior.dispatch_key`)
* `nurses_2/app.py` (`determine_nclicks`)
* `nurses_2/io/input/vt100/console_input.py` (`_create_mouse_event`,
  `_find_longest_match`, `read_keys`)
-/

namespace Batgrl

/-! ## Geometry: `Rect` and `overlapping_region`
(`widgets/widget_data_structures.py`, `widgets/widget.py:392-489`) -/

/-- The `Rect` named tuple `(top, left, bottom, right, height, width)`. -/
structure SRect where
  top : Int
  left : Int
  bottom : Int
  right : Int
  height : Int
  width : Int
deriving DecidableEq, Repr

/-- A python `slice(start, stop)` pair. -/
structure Slice where
  start : Int
  stop : Int
deriving DecidableEq, Repr

/-- Result of `overlapping_region`: the destination index pair
`(slice(dt, db), slice(dl, dr))` and the source `Rect`. -/
structure OverlapResult where
  destRows : Slice
  destCols : Slice
  source : SRect
deriving DecidableEq, Repr

/-- Embedding of `overlapping_region(rect, child)` from
`widgets/widget.py:392-489`.  `child` is the child widget's bounding box
(`child.rect`).  Returns `none` exactly where the python returns `False`. -/
def overlappingRegion (rect : SRect) (child : SRect) : Option OverlapResult :=
  let t := rect.top
  let l := rect.left
  let h := rect.height
  let w := rect.width
  let ct := child.top - t
  let cb := child.bottom - t
  let cl := child.left - l
  let cr := child.right - l
  if ct ≥ h ∨ cb < 0 ∨ cl ≥ w ∨ cr < 0 then
    none
  else
    let rows :=
      if ct < 0 then
        let st := -ct
        if cb ≥ h then (st, (0 : Int), h + st, h) else (st, (0 : Int), child.height, cb)
      else
        if cb ≥ h then ((0 : Int), ct, h - ct, h) else ((0 : Int), ct, child.height, cb)
    let cols :=
      if cl < 0 then
        let sl := -cl
        if cr ≥ w then (sl, (0 : Int), w + sl, w) else (sl, (0 : Int), child.width, cr)
      else
        if cr ≥ w then ((0 : Int), cl, w - cl, w) else ((0 : Int), cl, child.width, cr)
    let st := rows.1
    let dt := rows.2.1
    let sb := rows.2.2.1
    let db := rows.2.2.2
    let sl := cols.1
    let dl := cols.2.1
    let sr := cols.2.2.1
    let dr := cols.2.2.2
    some ⟨⟨dt, db⟩, ⟨dl, dr⟩, ⟨st, sl, sb, sr, sb - st, sr - sl⟩⟩

/-- Spec-side definition, following the claim's words: the destination
rectangle (rows `[top, top+height)`, columns `[left, left+width)`) and the
child's bounding box (rows `[top, bottom)`, columns `[left, right)`) have a
non-empty intersection. -/
def specNonemptyIntersection (rect : SRect) (child : SRect) : Bool :=
  max rect.top child.top < min (rect.top + rect.height) child.bottom ∧
  max rect.left child.left < min (rect.left + rect.width) child.right

/-- Closed form of `overlappingRegion` under the `Rect` invariants
`bottom = top + height` and `right = left + width` of the child's bounding
box: the guard is the source's literal non-overlap test and the returned
slices are the clamped intersection. -/
lemma overlappingRegion_closedForm (rect child : SRect)
    (hcb : child.bottom = child.top + child.height)
    (hcr : child.right = child.left + child.width) :
    overlappingRegion rect child =
      (if child.top - rect.top ≥ rect.height ∨ child.bottom - rect.top < 0 ∨
          child.left - rect.left ≥ rect.width ∨ child.right - rect.left < 0 then
        none
      else
        some ⟨⟨max (child.top - rect.top) 0, min (child.bottom - rect.top) rect.height⟩,
              ⟨max (child.left - rect.left) 0, min (child.right - rect.left) rect.width⟩,
              ⟨max (child.top - rect.top) 0 - (child.top - rect.top),
               max (child.left - rect.left) 0 - (child.left - rect.left),
               min (child.bottom - rect.top) rect.height - (child.top - rect.top),
               min (child.right - rect.left) rect.width - (child.left - rect.left),
               min (child.bottom - rect.top) rect.height - max (child.top - rect.top) 0,
               min (child.right - rect.left) rect.width - max (child.left - rect.left) 0⟩⟩) := by
  simp only [overlappingRegion]
  split_ifs <;>
    first
      | rfl
      | (simp only [Option.some.injEq, OverlapResult.mk.injEq, Slice.mk.injEq, SRect.mk.injEq]
         omega)

/-- C1 counterexample: `rect = (top 0, left 0, bottom 5, right 5, 5×5)` and a
child box `(top -2, left 0, bottom 0, right 2, 2×2)` whose bottom edge merely
touches the destination's top edge.  The intersection is empty, yet
`overlapping_region` returns a (zero-height) region instead of "none". -/
theorem overlapping_region_claim_counterexample :
    specNonemptyIntersection ⟨0, 0, 5, 5, 5, 5⟩ ⟨-2, 0, 0, 2, 2, 2⟩ = false ∧
    overlappingRegion ⟨0, 0, 5, 5, 5, 5⟩ ⟨-2, 0, 0, 2, 2, 2⟩ =
      some ⟨⟨0, 0⟩, ⟨0, 2⟩, ⟨2, 0, 2, 2, 0, 2⟩⟩ := by
  constructor
  · decide
  · rfl

/-- C1 (amended): under the child-box invariants `bottom = top + height` and
`right = left + width`, `overlapping_region` returns a region iff
`child.top - t < h ∧ 0 ≤ child.bottom - t ∧ child.left - l < w ∧
0 ≤ child.right - l`; every non-empty intersection yields the unique clamped
intersection region, the destination slices and source rectangle always have
equal heights and equal widths, but boundary-touching and zero-area
configurations inside the above inequalities yield a zero-area region rather
than "none". -/
theorem overlapping_region_amended (rect child : SRect)
    (hcb : child.bottom = child.top + child.height)
    (hcr : child.right = child.left + child.width) :
    ((overlappingRegion rect child).isSome ↔
      (child.top - rect.top < rect.height ∧ 0 ≤ child.bottom - rect.top ∧
       child.left - rect.left < rect.width ∧ 0 ≤ child.right - rect.left)) ∧
    (specNonemptyIntersection rect child = true →
      (overlappingRegion rect child).isSome) ∧
    (∀ res : OverlapResult, overlappingRegion rect child = some res →
      (res.destRows.start = max (child.top - rect.top) 0 ∧
       res.destRows.stop = min (child.bottom - rect.top) rect.height ∧
       res.destCols.start = max (child.left - rect.left) 0 ∧
       res.destCols.stop = min (child.right - rect.left) rect.width) ∧
      (res.source.top = res.destRows.start - (child.top - rect.top) ∧
       res.source.bottom = res.destRows.stop - (child.top - rect.top) ∧
       res.source.left = res.destCols.start - (child.left - rect.left) ∧
       res.source.right = res.destCols.stop - (child.left - rect.left)) ∧
      res.source.height = res.destRows.stop - res.destRows.start ∧
      res.source.width = res.destCols.stop - res.destCols.start) := by
  rw [overlappingRegion_closedForm rect child hcb hcr]
  refine ⟨?_, ?_, ?_⟩
  · split_ifs with h
    · simp only [Option.isSome_none, Bool.false_eq_true, false_iff]
      omega
    · simp only [Option.isSome_some, true_iff]
      omega
  · intro hspec
    simp only [specNonemptyIntersection, decide_eq_true_eq] at hspec
    split_ifs with h
    · omega
    · simp
  · intro res hres
    by_cases h : child.top - rect.top ≥ rect.height ∨ child.bottom - rect.top < 0 ∨
        child.left - rect.left ≥ rect.width ∨ child.right - rect.left < 0
    · rw [if_pos h] at hres
      cases hres
    · rw [if_neg h] at hres
      injection hres with h'
      subst h'
      exact ⟨⟨rfl, rfl, rfl, rfl⟩, ⟨rfl, rfl, rfl, rfl⟩, rfl, rfl⟩

/-- Witness for `overlapping_region_amended` at a concrete input
(`rect` 5×5 at origin, child 2×2 at `(1, 1)`). -/
theorem overlapping_region_amended_witness :
    ((overlappingRegion ⟨0, 0, 5, 5, 5, 5⟩ ⟨1, 1, 3, 3, 2, 2⟩).isSome ↔
      ((1 : Int) - 0 < 5 ∧ (0 : Int) ≤ 3 - 0 ∧ (1 : Int) - 0 < 5 ∧ (0 : Int) ≤ 3 - 0)) ∧
    (specNonemptyIntersection ⟨0, 0, 5, 5, 5, 5⟩ ⟨1, 1, 3, 3, 2, 2⟩ = true →
      (overlappingRegion ⟨0, 0, 5, 5, 5, 5⟩ ⟨1, 1, 3, 3, 2, 2⟩).isSome) := by
  have h := overlapping_region_amended ⟨0, 0, 5, 5, 5, 5⟩ ⟨1, 1, 3, 3, 2, 2⟩
    (by decide) (by decide)
  exact ⟨h.1, h.2.1⟩

/-! ## Compositor: the own-buffer paint of `Widget.render`
(`widgets/widget.py:322-347`) -/

/-- The per-render data of a widget used by `Widget.render`: transparency
flag, the configured `default_char`, canvas and colors.  The canvas and
colors grids are modelled as functions; only indices inside the widget's
`size` are meaningful.  `γ` is the type of a color pair (a `(6,)`-uint8
row in the source, copied wholesale by `render`). -/
structure RWidget (γ : Type) where
  isTransparent : Bool
  defaultChar : Char
  canvas : Nat → Nat → Char
  colors : Nat → Nat → γ

/-- Embedding of the own-buffer part of `Widget.render(canvas_view,
colors_view, rect)` (`widgets/widget.py:326-337`): paints
`canvas[t:b, l:r]`/`colors[t:b, l:r]` into the `(b-t)×(r-l)` views.  If
`is_transparent`, only source cells different from `" "` are painted
(`visible = source != " "`); otherwise the whole rectangle is overwritten. -/
def renderPaint {γ : Type} (wdg : RWidget γ) (t l b r : Nat)
    (canvasView : Nat → Nat → Char) (colorsView : Nat → Nat → γ) :
    (Nat → Nat → Char) × (Nat → Nat → γ) :=
  (fun i j =>
    if i < b - t ∧ j < r - l then
      if wdg.isTransparent ∧ wdg.canvas (t + i) (l + j) = ' ' then canvasView i j
      else wdg.canvas (t + i) (l + j)
    else canvasView i j,
   fun i j =>
    if i < b - t ∧ j < r - l then
      if wdg.isTransparent ∧ wdg.canvas (t + i) (l + j) = ' ' then colorsView i j
      else wdg.colors (t + i) (l + j)
    else colorsView i j)

/-- C2 counterexample: a transparent widget whose configured
`default_char` is `'x'` and whose source cell `(0,0)` is `'x'` — equal to
the widget's configured blank/background marker.  The claim says that
destination cell is left unchanged; the code overwrites it (transparency
keys on the literal `" "`, not on `default_char`). -/
theorem render_claim_counterexample :
    (RWidget.mk true 'x' (fun _ _ => 'x') (fun _ _ => (0 : Nat))).canvas 0 0 =
      (RWidget.mk true 'x' (fun _ _ => 'x') (fun _ _ => (0 : Nat))).defaultChar ∧
    (renderPaint (RWidget.mk true 'x' (fun _ _ => 'x') (fun _ _ => (0 : Nat)))
        0 0 1 1 (fun _ _ => 'y') (fun _ _ => (1 : Nat))).1 0 0 = 'x' ∧
    (renderPaint (RWidget.mk true 'x' (fun _ _ => 'x') (fun _ _ => (0 : Nat)))
        0 0 1 1 (fun _ _ => 'y') (fun _ _ => (1 : Nat))).1 0 0 ≠
      (fun _ _ => 'y') 0 0 := by
  refine ⟨rfl, by decide, by decide⟩

/-- C2 (amended): the blank/background marker used by `render` is the fixed
space character `" "`, not the widget's configured `default_char`.  If the
widget is transparent, every destination cell whose source grapheme is `' '`
keeps both its character and its color, and every other cell of the
rectangle receives the source character and color; if the widget is not
transparent, every cell of the rectangle is overwritten unconditionally. -/
theorem render_amended {γ : Type} (wdg : RWidget γ) (t l b r : Nat)
    (canvasView : Nat → Nat → Char) (colorsView : Nat → Nat → γ)
    (i j : Nat) (hi : i < b - t) (hj : j < r - l) :
    (wdg.isTransparent = true →
      (wdg.canvas (t + i) (l + j) = ' ' →
        (renderPaint wdg t l b r canvasView colorsView).1 i j = canvasView i j ∧
        (renderPaint wdg t l b r canvasView colorsView).2 i j = colorsView i j) ∧
      (wdg.canvas (t + i) (l + j) ≠ ' ' →
        (renderPaint wdg t l b r canvasView colorsView).1 i j = wdg.canvas (t + i) (l + j) ∧
        (renderPaint wdg t l b r canvasView colorsView).2 i j = wdg.colors (t + i) (l + j))) ∧
    (wdg.isTransparent = false →
      (renderPaint wdg t l b r canvasView colorsView).1 i j = wdg.canvas (t + i) (l + j) ∧
      (renderPaint wdg t l b r canvasView colorsView).2 i j = wdg.colors (t + i) (l + j)) := by
  simp only [renderPaint, if_pos (And.intro hi hj)]
  constructor
  · intro htr
    constructor
    · intro hblank
      rw [if_pos ⟨htr, hblank⟩, if_pos ⟨htr, hblank⟩]
      exact ⟨rfl, rfl⟩
    · intro hblank
      rw [if_neg (fun hc => hblank hc.2), if_neg (fun hc => hblank hc.2)]
      exact ⟨rfl, rfl⟩
  · intro htr
    rw [if_neg (fun hc => by simp [htr] at hc), if_neg (fun hc => by simp [htr] at hc)]
    exact ⟨rfl, rfl⟩

/-- Witness for `render_amended`: a 1×1 transparent widget with a blank
source cell over a `'y'`/color-1 destination leaves the destination
unchanged. -/
theorem render_amended_witness :
    (renderPaint (RWidget.mk true 'x' (fun _ _ => ' ') (fun _ _ => (0 : Nat)))
        0 0 1 1 (fun _ _ => 'y') (fun _ _ => (1 : Nat))).1 0 0 = (fun _ _ => 'y') 0 0 ∧
    (renderPaint (RWidget.mk true 'x' (fun _ _ => ' ') (fun _ _ => (0 : Nat)))
        0 0 1 1 (fun _ _ => 'y') (fun _ _ => (1 : Nat))).2 0 0 = (fun _ _ => (1 : Nat)) 0 0 := by
  have h := render_amended (RWidget.mk true 'x' (fun _ _ => ' ') (fun _ _ => (0 : Nat)))
    0 0 1 1 (fun _ _ => 'y') (fun _ _ => (1 : Nat)) 0 0 (by decide) (by decide)
  exact (h.1 rfl).1 rfl

/-! ## Cell buffer resize (`widgets/widget.py:58-79`) -/

/-- The buffer-relevant state of a `Widget`: size, canvas, colors and the
default fill values.  Canvas and colors are functions; only indices
`i < h`, `j < w` are meaningful. -/
structure WState (γ : Type) where
  h : Nat
  w : Nat
  canvas : Nat → Nat → Char
  colors : Nat → Nat → γ
  defaultChar : Char
  defaultColorPair : γ

/-- Embedding of `Widget.resize(size)` (`widgets/widget.py:58-79`): the new
buffer is filled with `default_char`/`default_color_pair` and the top-left
`min(old, new)` sub-rectangle of the old content is copied over. -/
def WState.resize {γ : Type} (s : WState γ) (h w : Nat) : WState γ :=
  { h := h
    w := w
    canvas := fun i j =>
      if i < min s.h h ∧ j < min s.w w then s.canvas i j else s.defaultChar
    colors := fun i j =>
      if i < min s.h h ∧ j < min s.w w then s.colors i j else s.defaultColorPair
    defaultChar := s.defaultChar
    defaultColorPair := s.defaultColorPair }

/-- C4: resizing from size `A = (s.h, s.w)` to `B = (h, w)` and back to `A`
(no intervening writes) restores canvas and colors on the componentwise
`min(A, B)` top-left sub-rectangle, and after any single resize every cell
inside the new size but outside the copied top-left overlap region holds
`default_char` and `default_color_pair`. -/
theorem resize_roundtrip {γ : Type} (s : WState γ) (h w : Nat) :
    (∀ i j, i < min s.h h → j < min s.w w →
      ((s.resize h w).resize s.h s.w).canvas i j = s.canvas i j ∧
      ((s.resize h w).resize s.h s.w).colors i j = s.colors i j) ∧
    (∀ i j, i < h → j < w → ¬(i < min s.h h ∧ j < min s.w w) →
      (s.resize h w).canvas i j = s.defaultChar ∧
      (s.resize h w).colors i j = s.defaultColorPair) := by
  constructor
  · intro i j hi hj
    have hi' : i < min h s.h := by omega
    have hj' : j < min w s.w := by omega
    simp only [WState.resize, if_pos (And.intro hi' hj'), if_pos (And.intro hi hj)]
    exact ⟨trivial, trivial⟩
  · intro i j _ _ hout
    simp only [WState.resize, if_neg hout]
    exact ⟨trivial, trivial⟩

/-- Witness for `resize_roundtrip`: a 2×2 buffer with canvas cell values
equal to `10 * i + j`, resized to 1×3 and back; cell `(0, 0)` is restored and
cell `(1, 2)` of the 1×3-resized... (cell `(0, 2)`) is the default. -/
theorem resize_roundtrip_witness :
    (((WState.mk 2 2 (fun i j => Char.ofNat (10 * i + j)) (fun i j => 10 * i + j)
        'd' (99 : Nat)).resize 1 3).resize 2 2).canvas 0 0 =
      (fun i j => Char.ofNat (10 * i + j)) 0 0 ∧
    ((WState.mk 2 2 (fun i j => Char.ofNat (10 * i + j)) (fun i j => 10 * i + j)
        'd' (99 : Nat)).resize 1 3).canvas 0 2 = 'd' := by
  have h := resize_roundtrip (WState.mk 2 2 (fun i j => Char.ofNat (10 * i + j))
    (fun i j => 10 * i + j) 'd' (99 : Nat)) 1 3
  exact ⟨(h.1 0 0 (by decide) (by decide)).1,
    (h.2 0 2 (by decide) (by decide) (by decide)).1⟩

/-! ## Event dispatch (`widgets/widget.py:349-374`)

`dispatch_click` (and the identically-shaped `dispatch_press` /
`dispatch_paste`) is
`any(c.dispatch_click(e) for c in reversed(children) if c.is_enabled)
 or self.on_click(e)`.
The embedding is instrumented: besides the handled flag it returns the
ordered list of widget ids whose own handler (`on_click`) was invoked,
mirroring the generator's lazy, short-circuit evaluation. -/

/-- A widget tree for dispatch: enabled flag, an id naming the widget, its
own `on_click` handler, and the ordered child list.  `α` is the event
type (mouse/key/paste events are passed through opaquely). -/
inductive WTree (α : Type) where
  | node (enabled : Bool) (id : Nat) (handler : α → Bool) (children : List (WTree α))

/-- `is_enabled` of a dispatch-tree widget. -/
def WTree.enabled {α : Type} : WTree α → Bool
  | .node e _ _ _ => e

mutual

/-- Embedding of `Widget.dispatch_click` (`widgets/widget.py:358-365`):
children in reverse order first (short-circuiting at the first `True`),
then the widget's own handler.  Returns the handled flag and the ordered
ids of the handlers that ran. -/
def dispatchClick {α : Type} : WTree α → α → Bool × List Nat
  | .node _ i handler children, e =>
    match dispatchRev children e with
    | (true, tr) => (true, tr)
    | (false, tr) =>
      (handler e, tr ++ [i])

/-- The generator `(c.dispatch_click(e) for c in reversed(children)
if c.is_enabled)` consumed by `any`: processes the tail of the list (the
later, topmost children) before the head, skips disabled children, and
stops at the first `True`. -/
def dispatchRev {α : Type} : List (WTree α) → α → Bool × List Nat
  | [], _ => (false, [])
  | wdg :: rest, e =>
    match dispatchRev rest e with
    | (true, tr) => (true, tr)
    | (false, tr) =>
      if wdg.enabled then
        match dispatchClick wdg e with
        | (b, tw) => (b, tr ++ tw)
      else (false, tr)

end

/-- Reference evaluation order: process a child list first-to-last,
skipping disabled children, recursing into each, stopping at the first
handled event.  `dispatchRev` below is shown to equal `dispatchFwd` on the
reversed child list, i.e. children are tried topmost (last) first. -/
def dispatchFwd {α : Type} : List (WTree α) → α → Bool × List Nat
  | [], _ => (false, [])
  | wdg :: rest, e =>
    if wdg.enabled then
      match dispatchClick wdg e with
      | (true, t) => (true, t)
      | (false, t) =>
        match dispatchFwd rest e with
        | (b, tr) => (b, t ++ tr)
    else dispatchFwd rest e

lemma dispatchFwd_append {α : Type} (l₁ l₂ : List (WTree α)) (e : α) :
    dispatchFwd (l₁ ++ l₂) e =
      match dispatchFwd l₁ e with
      | (true, t) => (true, t)
      | (false, t) =>
        match dispatchFwd l₂ e with
        | (b, t₂) => (b, t ++ t₂) := by
  induction l₁ with
  | nil =>
    simp only [List.nil_append, dispatchFwd]
  | cons w rest ih =>
    simp only [List.cons_append, dispatchFwd, List.append_eq]
    by_cases hw : w.enabled = true
    · rw [if_pos hw, if_pos hw]
      rcases hcw : dispatchClick w e with ⟨bw, tw⟩
      cases bw
      · rw [ih]
        rcases hrest : dispatchFwd rest e with ⟨br, tr⟩
        rcases h2 : dispatchFwd l₂ e with ⟨b2, t2⟩
        cases br <;> simp [List.append_assoc]
      · simp
    · rw [if_neg hw, if_neg hw]
      exact ih

lemma dispatchRev_eq_fwd_reverse {α : Type} (cs : List (WTree α)) (e : α) :
    dispatchRev cs e = dispatchFwd cs.reverse e := by
  induction cs with
  | nil => rfl
  | cons w rest ih =>
    simp only [dispatchRev, List.reverse_cons, dispatchFwd_append, ih]
    rcases hrest : dispatchFwd rest.reverse e with ⟨br, tr⟩
    cases br
    · simp only [dispatchFwd]
      by_cases hw : w.enabled = true
      · rw [if_pos hw, if_pos hw]
        rcases hcw : dispatchClick w e with ⟨bw, tw⟩
        cases bw <;> simp
      · rw [if_neg hw, if_neg hw]
        simp
    · simp

lemma dispatchRev_fst_any {α : Type} (cs : List (WTree α)) (e : α) :
    (dispatchRev cs e).1 = cs.any (fun c => c.enabled && (dispatchClick c e).1) := by
  induction cs with
  | nil => rfl
  | cons w rest ih =>
    simp only [dispatchRev, List.any_cons]
    rcases hrest : dispatchRev rest e with ⟨br, tr⟩
    rw [hrest] at ih
    cases br
    · by_cases hw : w.enabled = true
      · simp [hw, ← ih]
      · simp [← ih, Bool.eq_false_iff.mpr hw]
    · simp [← ih]

/-- C5: `dispatch_click` tries the children in reverse list order (topmost
first), skipping children with `is_enabled` false and recursing into each,
short-circuiting the moment any handler returns true; the widget's own
handler runs last, and only if no child consumed the event; and for a
container with children `[A, B]` (B topmost), B's handlers observe the
event first and A's handlers run exactly when B's dispatch returned false. -/
theorem dispatch_click_spec {α : Type} :
    (∀ (cs : List (WTree α)) (e : α), dispatchRev cs e = dispatchFwd cs.reverse e) ∧
    (∀ (en : Bool) (i : Nat) (handler : α → Bool) (cs : List (WTree α)) (e : α),
      (dispatchClick (.node en i handler cs) e).1 =
        (cs.any (fun c => c.enabled && (dispatchClick c e).1) || handler e)) ∧
    (∀ (en : Bool) (i : Nat) (handler : α → Bool) (cs : List (WTree α)) (e : α),
      (dispatchClick (.node en i handler cs) e).2 =
        (dispatchRev cs e).2 ++ (if (dispatchRev cs e).1 then [] else [i])) ∧
    (∀ (en : Bool) (i : Nat) (handler : α → Bool) (A B : WTree α) (e : α),
      A.enabled = true → B.enabled = true →
      dispatchClick (.node en i handler [A, B]) e =
        (if (dispatchClick B e).1 then (true, (dispatchClick B e).2)
         else if (dispatchClick A e).1 then
           (true, (dispatchClick B e).2 ++ (dispatchClick A e).2)
         else (handler e, (dispatchClick B e).2 ++ (dispatchClick A e).2 ++ [i]))) := by
  refine ⟨dispatchRev_eq_fwd_reverse, ?_, ?_, ?_⟩
  · intro en i handler cs e
    have hany := dispatchRev_fst_any cs e
    simp only [dispatchClick]
    rcases hrev : dispatchRev cs e with ⟨br, tr⟩
    rw [hrev] at hany
    cases br
    · simp [← hany]
    · simp [← hany]
  · intro en i handler cs e
    simp only [dispatchClick]
    rcases hrev : dispatchRev cs e with ⟨br, tr⟩
    cases br <;> simp
  · intro en i handler A B e hA hB
    simp only [dispatchClick, dispatchRev, if_pos hA, if_pos hB]
    rcases hcB : dispatchClick B e with ⟨bB, tB⟩
    rcases hcA : dispatchClick A e with ⟨bA, tA⟩
    cases bB
    · cases bA <;> simp
    · simp

/-- Witness for `dispatch_click_spec`: container with children `[A, B]`,
where A's handler declines and B's handler accepts; the event is handled,
only B's handler ran, and the container's own handler did not run. -/
theorem dispatch_click_spec_witness :
    dispatchClick (.node true 0 (fun _ => false)
        [.node true 1 (fun _ => false) [], .node true 2 (fun _ => true) []]) (0 : Nat) =
      (true, [2]) := by
  have h := (dispatch_click_spec (α := Nat)).2.2.2 true 0 (fun _ => false)
    (.node true 1 (fun _ => false) []) (.node true 2 (fun _ => true) []) 0 rfl rfl
  rw [h]
  rfl

/-! ## Click classifier: `determine_nclicks` (`app.py:229-256`) -/

/-- Mouse event types (`MouseEventType`); `determine_nclicks` only tests
identity with `MOUSE_DOWN`. -/
inductive MouseEventType where
  | mouseDown
  | mouseUp
  | mouseMove
  | scrollUp
  | scrollDown
deriving DecidableEq, Repr

/-- A `_PartialMouseEvent`: position, button and event type, before the
click count has been determined.  Buttons are opaque codes; `0` stands for
`MouseButton.NO_BUTTON` (the classifier's initial `last_mouse_button`). -/
structure PMouseEvent where
  pos : Int × Int
  button : Nat
  eventType : MouseEventType
deriving DecidableEq, Repr

/-- A full `MouseEvent` (`_PartialMouseEvent` fields plus `nclicks`). -/
structure MouseEventR where
  pos : Int × Int
  button : Nat
  eventType : MouseEventType
  nclicks : Nat
deriving DecidableEq, Repr

/-- The classifier's closed-over state in `App._run_async`:
`last_mouse_button`, `last_mouse_time`, `last_mouse_nclicks`.  Times are
modelled as rationals. -/
structure ClickState where
  lastButton : Nat
  lastTime : ℚ
  lastNclicks : Nat
deriving DecidableEq, Repr

/-- The state at startup (`app.py:229-231`): `NO_BUTTON` (code `0`), the
current time, zero clicks. -/
def initClickState (t0 : ℚ) : ClickState := ⟨0, t0, 0⟩

/-- Embedding of `determine_nclicks` (`app.py:233-256`).  `currentTime` is
the value of `monotonic()` at the call. -/
def determineNclicks (doubleClickTimeout : ℚ) (st : ClickState)
    (e : PMouseEvent) (currentTime : ℚ) : ClickState × MouseEventR :=
  if e.eventType ≠ MouseEventType.mouseDown then
    (st, ⟨e.pos, e.button, e.eventType, 0⟩)
  else
    let st' :=
      if st.lastButton ≠ e.button ∨ currentTime - st.lastTime > doubleClickTimeout then
        { lastButton := e.button, lastTime := currentTime, lastNclicks := 1 }
      else
        { lastButton := st.lastButton, lastTime := currentTime,
          lastNclicks := st.lastNclicks % 3 + 1 }
    (st', ⟨e.pos, e.button, e.eventType, st'.lastNclicks⟩)

/-- Click counts of a run of mouse-down events on button `b` at the given
times, threading the classifier state. -/
def runDowns (doubleClickTimeout : ℚ) (b : Nat) (p : Int × Int) :
    ClickState → List ℚ → List Nat
  | _, [] => []
  | st, t :: ts =>
    let r := determineNclicks doubleClickTimeout st ⟨p, b, .mouseDown⟩ t
    r.2.nclicks :: runDowns doubleClickTimeout b p r.1 ts

lemma runDowns_cycle (timeout : ℚ) (b : Nat) (p : Int × Int) :
    ∀ (times : List ℚ) (st : ClickState) (k : Nat),
      st.lastButton = b → st.lastNclicks = k →
      (∀ t0, times.head? = some t0 → t0 - st.lastTime ≤ timeout) →
      times.Chain' (fun a c => c - a ≤ timeout) →
      runDowns timeout b p st times =
        (List.range times.length).map (fun n => (k + n) % 3 + 1) := by
  intro times
  induction times with
  | nil => intro st k _ _ _ _; rfl
  | cons t ts ih =>
    intro st k hb hk hhead hchain
    have hwin : ¬(st.lastButton ≠ b ∨ t - st.lastTime > timeout) := by
      push_neg
      exact ⟨hb, hhead t rfl⟩
    simp only [runDowns, determineNclicks]
    rw [if_neg (by simp)]
    rw [if_neg hwin]
    have hrest : runDowns timeout b p
        ⟨st.lastButton, t, st.lastNclicks % 3 + 1⟩ ts =
        (List.range ts.length).map (fun n => ((k % 3 + 1) + n) % 3 + 1) := by
      apply ih
      · exact hb
      · simp [hk]
      · intro t0 ht0
        rcases ts with _ | ⟨t1, ts'⟩
        · cases ht0
        · cases ht0
          exact (List.chain'_cons.mp hchain).1
      · exact hchain.tail
    rw [hrest]
    simp only [List.length_cons, List.range_succ_eq_map, List.map_cons, List.map_map]
    rw [List.cons_eq_cons]
    constructor
    · simp [hk]
    · apply List.map_congr_left
      intro n _
      simp only [Function.comp_apply]
      omega

/-- C6: `determine_nclicks` — non-down events carry `click_count = 0` and
leave the classifier state unchanged; a mouse-down with a different button
or past the double-click window yields `click_count = 1`; a mouse-down on
the same button within the window yields `last_count % 3 + 1`; and a run of
same-button mouse-downs each within the window, starting from the initial
state, yields the cycling counts `1, 2, 3, 1, 2, 3, ...`. -/
theorem determine_nclicks_spec (timeout : ℚ) :
    (∀ (st : ClickState) (e : PMouseEvent) (t : ℚ),
      e.eventType ≠ MouseEventType.mouseDown →
      determineNclicks timeout st e t = (st, ⟨e.pos, e.button, e.eventType, 0⟩)) ∧
    (∀ (st : ClickState) (e : PMouseEvent) (t : ℚ),
      e.eventType = MouseEventType.mouseDown →
      (st.lastButton ≠ e.button ∨ t - st.lastTime > timeout) →
      (determineNclicks timeout st e t).2.nclicks = 1 ∧
      (determineNclicks timeout st e t).1 = ⟨e.button, t, 1⟩) ∧
    (∀ (st : ClickState) (e : PMouseEvent) (t : ℚ),
      e.eventType = MouseEventType.mouseDown →
      st.lastButton = e.button → t - st.lastTime ≤ timeout →
      (determineNclicks timeout st e t).2.nclicks = st.lastNclicks % 3 + 1 ∧
      (determineNclicks timeout st e t).1 = ⟨st.lastButton, t, st.lastNclicks % 3 + 1⟩) ∧
    (∀ (t0 : ℚ) (p : Int × Int) (b : Nat) (times : List ℚ),
      (∀ ta, times.head? = some ta → ta - t0 ≤ timeout) →
      times.Chain' (fun a c => c - a ≤ timeout) →
      b = 0 →
      runDowns timeout b p (initClickState t0) times =
        (List.range times.length).map (fun n => n % 3 + 1)) := by
  refine ⟨?_, ?_, ?_, ?_⟩
  · intro st e t hne
    simp only [determineNclicks, if_pos hne]
  · intro st e t hdown hreset
    simp only [determineNclicks]
    rw [if_neg (by simp [hdown]), if_pos hreset]
    exact ⟨rfl, rfl⟩
  · intro st e t hdown hbtn hwin
    simp only [determineNclicks]
    rw [if_neg (by simp [hdown]), if_neg (by push_neg; exact ⟨hbtn, hwin⟩)]
    exact ⟨rfl, rfl⟩
  · intro t0 p b times hhead hchain hb
    have h := runDowns_cycle timeout b p times (initClickState t0) 0
      (by simp [initClickState, hb]) rfl (by simpa [initClickState] using hhead) hchain
    simpa using h

/-- Witness for `determine_nclicks_spec`: three same-button downs at times
`1, 2, 3` (window `2`) from the initial state at time `0` yield click
counts `[1, 2, 3]`, and a scroll event carries click count `0` and leaves
the state unchanged. -/
theorem determine_nclicks_spec_witness :
    runDowns 2 0 (0, 0) (initClickState 0) [1, 2, 3] = [1, 2, 3] ∧
    determineNclicks 2 (initClickState 0) ⟨(0, 0), 5, .scrollUp⟩ 1 =
      (initClickState 0, ⟨(0, 0), 5, .scrollUp, 0⟩) := by
  constructor
  · have h := (determine_nclicks_spec 2).2.2.2 0 (0, 0) 0 [1, 2, 3]
      (by intro ta hta; cases hta; norm_num)
      (by norm_num [List.chain'_cons]) rfl
    rw [h]
    rfl
  · exact (determine_nclicks_spec 2).1 (initClickState 0) ⟨(0, 0), 5, .scrollUp⟩ 1
      (by decide)

/-! ## Focus key routing: `FocusBehavior.dispatch_key`
(`widgets/behaviors/focus_behavior.py:137-149`) -/

/-- Key modifiers; `dispatch_key` only reads `shift`. -/
structure Mods where
  shift : Bool
deriving DecidableEq, Repr

/-- A key press event as seen by `FocusBehavior.dispatch_key`: the key name
and the modifiers. -/
structure FKeyEvent where
  key : String
  mods : Mods
deriving DecidableEq, Repr

/-- The action `FocusBehavior.dispatch_key` takes besides returning. -/
inductive FocusAction where
  | focusNext
  | focusPrevious
  | superDispatch
  | none
deriving DecidableEq, Repr

/-- Embedding of `FocusBehavior.dispatch_key`
(`focus_behavior.py:137-149`): which focus action runs, and the returned
handled flag.  `isFocused` is `self.is_focused`; `superResult` is the value
`super().dispatch_key(key_event)` would return. -/
def focusDispatchKey (isFocused : Bool) (superResult : Bool)
    (keyEvent : FKeyEvent) : Bool × FocusAction :=
  if keyEvent.key ≠ "tab" then
    if isFocused then (superResult, .superDispatch)
    else (false, .none)
  else
    if keyEvent.mods.shift then (true, .focusPrevious)
    else (true, .focusNext)

/-- C8: on a `tab` key, `FocusBehavior.dispatch_key` triggers `focus_next`
when shift is absent and `focus_previous` when shift is held, and returns
handled = true in both cases, for every focus state and regardless of any
other handler's outcome. -/
theorem focus_dispatch_key_tab (isFocused superResult : Bool)
    (keyEvent : FKeyEvent) (htab : keyEvent.key = "tab") :
    (keyEvent.mods.shift = false →
      focusDispatchKey isFocused superResult keyEvent = (true, .focusNext)) ∧
    (keyEvent.mods.shift = true →
      focusDispatchKey isFocused superResult keyEvent = (true, .focusPrevious)) ∧
    (focusDispatchKey isFocused superResult keyEvent).1 = true := by
  simp only [focusDispatchKey, htab]
  rw [if_neg (by simp)]
  rcases hs : keyEvent.mods.shift
  · simp
  · simp

/-- Witness for `focus_dispatch_key_tab`: a shift+tab on an unfocused
widget returns handled and rotates backwards. -/
theorem focus_dispatch_key_tab_witness :
    focusDispatchKey false false ⟨"tab", ⟨true⟩⟩ = (true, .focusPrevious) ∧
    (focusDispatchKey false false ⟨"tab", ⟨true⟩⟩).1 = true := by
  have h := focus_dispatch_key_tab false false ⟨"tab", ⟨true⟩⟩ rfl
  exact ⟨h.2.1 rfl, h.2.2⟩

/-! ## VT100 mouse reports: `_create_mouse_event`
(`io/input/vt100/console_input.py:32-61`)

Input strings are modelled as `List Char`.  The three lookup tables
`TYPICAL`, `TERM_SGR` and `URXVT` live in `mouse_bindings.py`, which is not
part of the embedded sources; every theorem is stated for arbitrary tables,
covering in particular the fixed ones of the source.  A python `ValueError`
(bad unpacking or `int()` on a non-digit string) is `.error ()`; a silently
dropped report is `.ok none`. -/

/-- Python `int(s)` on the digit-only strings produced by the mouse-report
regular expression: `none` on the empty string or any non-digit. -/
def parseDigits (l : List Char) : Option Nat :=
  if l ≠ [] ∧ l.all Char.isDigit then
    some (l.foldl (fun acc c => acc * 10 + (c.toNat - '0'.toNat)) 0)
  else none

/-- Python `str.split(";")` (keeping empty groups). -/
def splitSemi : List Char → List (List Char)
  | [] => [[]]
  | c :: t =>
    if c = ';' then [] :: splitSemi t
    else
      match splitSemi t with
      | [] => [[c]]
      | g :: gs => (c :: g) :: gs

/-- The coordinate correction of the legacy/X10 grammar
(`console_input.py:40-46`): undo the surrogate escape, then subtract the
protocol bias 32. -/
def legacyCoord (n : Nat) : Int :=
  ((if 0xDC00 ≤ n then n - 0xDC00 else n : Nat) : Int) - 32

/-- Embedding of `_create_mouse_event(data)`
(`console_input.py:32-61`), parameterized by the three lookup tables.
Returns `.ok (some ((y, x), info))` when a `MouseEvent` is appended,
`.ok none` when the code is not in the table (report dropped), and
`.error ()` where the python raises. -/
def createMouseEvent {β : Type} (typical urxvt : Nat → Option β)
    (termSgr : Nat → Char → Option β) (data : List Char) :
    Except Unit (Option ((Int × Int) × β)) :=
  match data with
  | _ :: _ :: c2 :: rest =>
    if c2 = 'M' then
      match rest with
      | [a, b, c] =>
        Except.ok ((typical a.toNat).map
          (fun info => ((legacyCoord c.toNat, legacyCoord b.toNat), info)))
      | _ => Except.error ()
    else if c2 = '<' then
      match rest.getLast? with
      | none => Except.error ()
      | some lastc =>
        match (splitSemi rest.dropLast).mapM parseDigits with
        | some [me, x, y] =>
          Except.ok ((termSgr me lastc).map
            (fun info => (((y : Int) - 1, (x : Int) - 1), info)))
        | _ => Except.error ()
    else
      match (splitSemi ((c2 :: rest).dropLast)).mapM parseDigits with
      | some [me, x, y] =>
        Except.ok ((urxvt me).map
          (fun info => (((y : Int) - 1, (x : Int) - 1), info)))
      | _ => Except.error ()
  | _ => Except.error ()

lemma parseDigits_not_semi {l : List Char} {n : Nat}
    (h : parseDigits l = some n) : ';' ∉ l := by
  simp only [parseDigits] at h
  split_ifs at h with hc
  intro hmem
  have := hc.2
  rw [List.all_eq_true] at this
  have := this ';' hmem
  simp [Char.isDigit] at this

lemma parseDigits_ne_nil {l : List Char} {n : Nat}
    (h : parseDigits l = some n) : l ≠ [] := by
  simp only [parseDigits] at h
  split_ifs at h with hc
  exact hc.1

lemma parseDigits_head_digit {c : Char} {l : List Char} {n : Nat}
    (h : parseDigits (c :: l) = some n) : c.isDigit = true := by
  simp only [parseDigits] at h
  split_ifs at h with hc
  have := hc.2
  rw [List.all_eq_true] at this
  exact this c (by simp)

lemma splitSemi_no_semi (a : List Char) (ha : ';' ∉ a) : splitSemi a = [a] := by
  induction a with
  | nil => rfl
  | cons c t ih =>
    have hc : ¬c = ';' := fun h => ha (h ▸ List.mem_cons_self c t)
    have ht : ';' ∉ t := fun h => ha (List.mem_cons_of_mem c h)
    simp only [splitSemi, if_neg hc, ih ht]

lemma splitSemi_append_semi (a b : List Char) (ha : ';' ∉ a) :
    splitSemi (a ++ ';' :: b) = a :: splitSemi b := by
  induction a with
  | nil => simp [splitSemi]
  | cons c t ih =>
    have hc : ¬c = ';' := fun h => ha (h ▸ List.mem_cons_self c t)
    have ht : ';' ∉ t := fun h => ha (List.mem_cons_of_mem c h)
    simp only [List.cons_append, splitSemi, if_neg hc, List.append_eq, ih ht]

/-- `split(";")` of `e;x;y` into exactly the three digit groups. -/
lemma splitSemi_three (e x y : List Char) (he : ';' ∉ e) (hx : ';' ∉ x)
    (hy : ';' ∉ y) :
    splitSemi (e ++ ';' :: (x ++ ';' :: y)) = [e, x, y] := by
  rw [splitSemi_append_semi e _ he, splitSemi_append_semi x _ hx,
    splitSemi_no_semi y hy]

/-- C9: for every well-formed mouse report in each of the three grammars
and for arbitrary lookup tables, `_create_mouse_event` resolves the numeric
event code (for SGR together with the trailing letter) through the
corresponding table: a hit yields exactly that table entry's
`(button, event_type)` with the grammar's coordinate correction, and a miss
yields `.ok none` — the report is silently dropped, never an error. -/
theorem create_mouse_event_spec {β : Type}
    (typical urxvt : Nat → Option β) (termSgr : Nat → Char → Option β) :
    (∀ a b c : Char,
      createMouseEvent typical urxvt termSgr ('\x1b' :: '[' :: 'M' :: [a, b, c]) =
        Except.ok ((typical a.toNat).map
          (fun info => ((legacyCoord c.toNat, legacyCoord b.toNat), info)))) ∧
    (∀ (e x y : List Char) (ne nx ny : Nat) (c : Char),
      parseDigits e = some ne → parseDigits x = some nx → parseDigits y = some ny →
      createMouseEvent typical urxvt termSgr
          ('\x1b' :: '[' :: '<' :: (e ++ ';' :: (x ++ ';' :: (y ++ [c])))) =
        Except.ok ((termSgr ne c).map
          (fun info => (((ny : Int) - 1, (nx : Int) - 1), info)))) ∧
    (∀ (c0 : Char) (e0 x y : List Char) (ne nx ny : Nat) (c : Char),
      parseDigits (c0 :: e0) = some ne → parseDigits x = some nx →
      parseDigits y = some ny →
      createMouseEvent typical urxvt termSgr
          ('\x1b' :: '[' :: c0 :: (e0 ++ ';' :: (x ++ ';' :: (y ++ [c])))) =
        Except.ok ((urxvt ne).map
          (fun info => (((ny : Int) - 1, (nx : Int) - 1), info)))) := by
  refine ⟨?_, ?_, ?_⟩
  · intro a b c
    rfl
  · intro e x y ne nx ny c he hx hy
    have hassoc : e ++ ';' :: (x ++ ';' :: (y ++ [c])) =
        (e ++ ';' :: (x ++ ';' :: y)) ++ [c] := by simp
    simp only [createMouseEvent, hassoc]
    rw [if_pos trivial, List.getLast?_concat, List.dropLast_concat,
      splitSemi_three e x y (parseDigits_not_semi he) (parseDigits_not_semi hx)
        (parseDigits_not_semi hy)]
    simp [List.mapM.loop, he, hx, hy]
  · intro c0 e0 x y ne nx ny c he hx hy
    have hd := parseDigits_head_digit he
    have hM : ¬c0 = 'M' := by
      intro h
      rw [h] at hd
      simp at hd
    have hlt : ¬c0 = '<' := by
      intro h
      rw [h] at hd
      simp at hd
    have hassoc : c0 :: (e0 ++ ';' :: (x ++ ';' :: (y ++ [c]))) =
        ((c0 :: e0) ++ ';' :: (x ++ ';' :: y)) ++ [c] := by simp
    simp only [createMouseEvent]
    rw [if_neg hM, if_neg hlt, hassoc, List.dropLast_concat,
      splitSemi_three (c0 :: e0) x y (parseDigits_not_semi he)
        (parseDigits_not_semi hx) (parseDigits_not_semi hy)]
    simp [List.mapM.loop, he, hx, hy]

/-- Witness for `create_mouse_event_spec`: a legacy report whose event code
32 is in the table yields the table's entry with unbiased coordinates, and
an SGR report whose code is not in the table is dropped (`.ok none`) rather
than raising. -/
theorem create_mouse_event_spec_witness :
    createMouseEvent (fun n => if n = 32 then some 7 else none)
        (fun _ => none) (fun _ _ => none)
        ('\x1b' :: '[' :: 'M' :: [' ', '!', '"']) =
      Except.ok (some ((2, 1), 7)) ∧
    createMouseEvent (fun n => if n = 32 then some 7 else none)
        (fun _ => none) (fun _ _ => none)
        ('\x1b' :: '[' :: '<' ::
          (['6', '4'] ++ ';' :: (['8'] ++ ';' :: (['1'] ++ ['M'])))) =
      Except.ok none := by
  constructor
  · have h := (create_mouse_event_spec (fun n => if n = 32 then some 7 else none)
      (fun _ => none) (fun _ _ => none)).1 ' ' '!' '"'
    rw [h]
    rfl
  · have h := (create_mouse_event_spec (fun n => if n = 32 then some 7 else none)
      (fun _ => none) (fun _ _ => none)).2.1 ['6', '4'] ['8'] ['1'] 64 8 1 'M'
      (by decide) (by decide) (by decide)
    rw [h]
    rfl

/-! ## Escape-sequence decoding: `_find_longest_match` and `read_keys`
(`io/input/vt100/console_input.py:63-119`) -/

/-- A value of the `ANSI_ESCAPES` table (`ansi_escapes.py`): `Key.Ignore`,
`Key.Paste`, the `KeyPressEvent.ESCAPE` object, or any other key-press
object (represented by an opaque code). -/
inductive TableEntry where
  | ignore
  | paste
  | escape
  | press (n : Nat)
deriving DecidableEq, Repr

/-- Events appended to `_EVENTS` by `_find_longest_match`. -/
inductive IEvent where
  | paste (s : List Char)
  | keyEntry (n : Nat)
  | escKey
  | chars (s : List Char) (alt : Bool)
  | mouse (pos : Int × Int) (info : Nat × Nat)
deriving DecidableEq, Repr

/-- The decoder's lookup tables: `ANSI_ESCAPES` plus the three mouse
tables (none of which are among the embedded sources; all theorems hold
for arbitrary tables). -/
structure DecoderTables where
  ansi : List Char → Option TableEntry
  typical : Nat → Option (Nat × Nat)
  urxvt : Nat → Option (Nat × Nat)
  termSgr : Nat → Char → Option (Nat × Nat)

/-- The `<?[\d;]+[mM]` part of `MOUSE_RE` applied after `ESC[` (and after
an optional `<`): one or more digits/semicolons terminated by `m` or `M`. -/
def digitSemiTail (t : List Char) : Bool :=
  decide (t.dropLast ≠ []) && t.dropLast.all (fun c => c.isDigit || c = ';') &&
    (t.getLast? == some 'm' || t.getLast? == some 'M')

/-- Embedding of `MOUSE_RE = ^ESC\[(<?[\d;]+[mM]|M...)\Z`
(`console_input.py:15`); `.` does not match a newline. -/
def mouseRe : List Char → Bool
  | '\x1b' :: '[' :: 'M' :: t => decide (t.length = 3) && t.all (fun c => decide (c ≠ '\n'))
  | '\x1b' :: '[' :: '<' :: t => digitSemiTail t
  | '\x1b' :: '[' :: t => digitSemiTail t
  | _ => false

/-- Python `suffix.find(pat)`: index of the first occurrence of `pat`, or
`none` (python `-1`) when absent. -/
def findSub (pat : List Char) : List Char → Option Nat
  | [] => if pat = [] then some 0 else none
  | c :: t => if pat.isPrefixOf (c :: t) then some 0 else (findSub pat t).map (· + 1)

/-- The bracketed paste end marker `"\x1b[201~"` (`console_input.py:83`). -/
def pasteEndMarker : List Char := ['\x1b', '[', '2', '0', '1', '~']

/-- The `for i in range(len(data), 0, -1)` loop body of
`_find_longest_match` (`console_input.py:63-104`), at loop index `i + 1`;
index `0` is the fall-through after the loop (which reuses the leaked
`i = 1` values of `prefix`/`suffix`).  Returns the events appended and the
remaining buffer, or `.error ()` where the python raises. -/
def flmGo (tb : DecoderTables) (data : List Char) :
    Nat → Except Unit (List IEvent × List Char)
  | 0 => Except.ok ([IEvent.chars (data.take 1) false], data.drop 1)
  | i + 1 =>
    let prefx := data.take (i + 1)
    let suffix := data.drop (i + 1)
    if mouseRe prefx then
      match createMouseEvent tb.typical tb.urxvt tb.termSgr prefx with
      | Except.error e => Except.error e
      | Except.ok none => Except.ok ([], suffix)
      | Except.ok (some (p, info)) => Except.ok ([IEvent.mouse p info], suffix)
    else
      match tb.ansi prefx with
      | none => flmGo tb data i
      | some TableEntry.ignore => Except.ok ([], suffix)
      | some TableEntry.paste =>
        match findSub pasteEndMarker suffix with
        | none => Except.ok ([IEvent.paste suffix], [])
        | some j => Except.ok ([IEvent.paste (suffix.take j)], suffix.drop (j + 6))
      | some TableEntry.escape =>
        if suffix ≠ [] ∧ (tb.ansi suffix).isNone then
          if suffix.length = 1 then Except.ok ([IEvent.chars suffix true], [])
          else Except.ok ([IEvent.chars data false], [])
        else Except.ok ([IEvent.escKey], suffix)
      | some (TableEntry.press n) => Except.ok ([IEvent.keyEntry n], suffix)

/-- Embedding of `_find_longest_match(data)`: the loop from `len(data)`
down to `1`, then the fall-through.  On the empty string the python raises
(`prefix` is unbound), which `read_keys` never triggers. -/
def findLongestMatch (tb : DecoderTables) (data : List Char) :
    Except Unit (List IEvent × List Char) :=
  match data with
  | [] => Except.error ()
  | _ => flmGo tb data data.length

/-- The `while data: data = _find_longest_match(data)` loop of `read_keys`
(`console_input.py:114-115`), with explicit fuel; `none` means the fuel ran
out before the buffer was exhausted. -/
def readLoopFuel (tb : DecoderTables) : Nat → List Char → Option (Except Unit (List IEvent))
  | _, [] => some (Except.ok [])
  | 0, _ :: _ => none
  | fuel + 1, c :: t =>
    match findLongestMatch tb (c :: t) with
    | Except.error e => some (Except.error e)
    | Except.ok (evs, rest) =>
      (readLoopFuel tb fuel rest).map (fun r => r.map (fun more => evs ++ more))

lemma flmGo_shrinks (tb : DecoderTables) (data : List Char)
    (hd : 1 ≤ data.length) :
    ∀ (i : Nat) (evs : List IEvent) (rest : List Char),
      flmGo tb data i = Except.ok (evs, rest) → rest.length < data.length := by
  intro i
  induction i with
  | zero =>
    intro evs rest h
    simp only [flmGo] at h
    cases h
    simp only [List.length_drop]
    omega
  | succ i ih =>
    intro evs rest h
    simp only [flmGo] at h
    split at h <;>
      first
        | (exact ih _ _ h)
        | (cases h <;> (simp only [List.length_drop, List.length_nil]; omega))
        | (split at h <;>
            first
              | (exact ih _ _ h)
              | (cases h <;> (simp only [List.length_drop, List.length_nil]; omega))
              | (split at h <;>
                  first
                    | (exact ih _ _ h)
                    | (cases h <;> (simp only [List.length_drop, List.length_nil]; omega))
                    | (split at h <;>
                        first
                          | (exact ih _ _ h)
                          | (cases h <;>
                              (simp only [List.length_drop, List.length_nil]; omega)))))

lemma readLoopFuel_isSome (tb : DecoderTables) :
    ∀ (n : Nat) (data : List Char), data.length ≤ n →
      (readLoopFuel tb n data).isSome = true := by
  intro n
  induction n with
  | zero =>
    intro data hlen
    have : data = [] := List.length_eq_zero.mp (Nat.le_zero.mp hlen)
    subst this
    rfl
  | succ n ih =>
    intro data hlen
    match data with
    | [] => rfl
    | c :: t =>
      simp only [readLoopFuel]
      cases hm : findLongestMatch tb (c :: t) with
      | error e => rfl
      | ok pr =>
        rcases pr with ⟨evs, rest⟩
        have hshrink : rest.length < (c :: t).length := by
          have h1 : (1 : Nat) ≤ (c :: t).length := by simp
          exact flmGo_shrinks tb (c :: t) h1 (c :: t).length evs rest hm
        have := ih rest (by simp at hshrink hlen ⊢; omega)
        obtain ⟨r, hr⟩ := Option.isSome_iff_exists.mp this
        show (Option.map (fun r => Except.map (fun more => evs ++ more) r)
          (readLoopFuel tb n rest)).isSome = true
        rw [hr]
        rfl

/-- C10: every successful step of `_find_longest_match` returns a strictly
shorter remainder than its input (every branch consumes at least one
character), and consequently the `read_keys` loop finishes within
`len(data)` iterations for every finite input. -/
theorem find_longest_match_terminates (tb : DecoderTables) :
    (∀ (data : List Char) (evs : List IEvent) (rest : List Char),
      findLongestMatch tb data = Except.ok (evs, rest) →
      rest.length < data.length) ∧
    (∀ data : List Char, (readLoopFuel tb data.length data).isSome = true) := by
  constructor
  · intro data evs rest h
    match data with
    | [] => cases h
    | c :: t =>
      exact flmGo_shrinks tb (c :: t) (by simp) (c :: t).length evs rest h
  · intro data
    exact readLoopFuel_isSome tb data.length data le_rfl

/-- Modelled from the spec: the fragment of the `ANSI_ESCAPES` table
(`ansi_escapes.py`, not among the embedded sources) needed for concrete
decoder runs — the bracketed-paste start marker `ESC[200~` maps to
`Key.Paste`, a lone `ESC` to the escape key, and a stray paste end marker
to `Key.Ignore` ("bare printable characters, control characters, named
keys" are irrelevant to these runs and left absent). -/
def specAnsiTable : List Char → Option TableEntry := fun s =>
  if s = ['\x1b', '[', '2', '0', '0', '~'] then some TableEntry.paste
  else if s = ['\x1b'] then some TableEntry.escape
  else if s = ['\x1b', '[', '2', '0', '1', '~'] then some TableEntry.ignore
  else none

/-- Concrete decoder tables built from `specAnsiTable`, with empty mouse
tables. -/
def specTables : DecoderTables :=
  ⟨specAnsiTable, fun _ => none, fun _ => none, fun _ _ => none⟩

/-- Witness for `find_longest_match_terminates`: one step on the one-byte
buffer `"a"` consumes it entirely, and the read loop completes within
`len("a")` iterations. -/
theorem find_longest_match_terminates_witness :
    ([] : List Char).length < (['a'] : List Char).length ∧
    (readLoopFuel specTables (['a'] : List Char).length ['a']).isSome = true :=
  ⟨(find_longest_match_terminates specTables).1 ['a'] [IEvent.chars ['a'] false] []
      (by rfl),
   (find_longest_match_terminates specTables).2 ['a']⟩

/-- C3 counterexample: feeding the paste start marker plus `"hello"` (no
terminator yet) in one chunk makes the decoder emit a `Paste("hello")`
event immediately and consume the whole buffer — it does not "emit nothing
and wait for more input". -/
theorem paste_wait_claim_counterexample :
    findLongestMatch specTables
        ['\x1b', '[', '2', '0', '0', '~', 'h', 'e', 'l', 'l', 'o'] =
      Except.ok ([IEvent.paste ['h', 'e', 'l', 'l', 'o']], []) ∧
    [IEvent.paste ['h', 'e', 'l', 'l', 'o']] ≠ ([] : List IEvent) := by
  constructor
  · rfl
  · decide

lemma flmGo_skip (tb : DecoderTables) (data : List Char) (i : Nat)
    (hlonger : ∀ j < data.length + 1, i < j →
      mouseRe (data.take j) = false ∧ tb.ansi (data.take j) = none) :
    ∀ d, i + d ≤ data.length → flmGo tb data (i + d) = flmGo tb data i := by
  intro d
  induction d with
  | zero => intro _; rfl
  | succ d ih =>
    intro hle
    have hj := hlonger (i + d + 1) (by omega) (by omega)
    show flmGo tb data ((i + d) + 1) = _
    simp only [flmGo, hj.1, Bool.false_eq_true, if_false, hj.2]
    exact ih (by omega)

/-- C3 (amended): when the longest matching table entry is the bracketed
paste start and the paste-end terminator is not in the current buffer, the
decoder does not wait: it immediately emits one Paste event containing the
entire remaining buffer and consumes everything.  In particular, feeding
the start marker plus "hello" in one chunk and " world" plus the end marker
in a second chunk yields a Paste event containing only "hello" from the
first chunk, not a single "hello world" paste. -/
theorem paste_wait_amended (tb : DecoderTables) (data : List Char) (i : Nat)
    (hi : 1 ≤ i) (hil : i ≤ data.length)
    (hpaste : tb.ansi (data.take i) = some TableEntry.paste)
    (hmouse : mouseRe (data.take i) = false)
    (hlonger : ∀ j < data.length + 1, i < j →
      mouseRe (data.take j) = false ∧ tb.ansi (data.take j) = none)
    (hnoend : findSub pasteEndMarker (data.drop i) = none) :
    findLongestMatch tb data = Except.ok ([IEvent.paste (data.drop i)], []) := by
  have h1 : findLongestMatch tb data = flmGo tb data data.length := by
    cases data with
    | nil =>
      simp at hil
      omega
    | cons c t => rfl
  rw [h1]
  have h2 : data.length = i + (data.length - i) := by omega
  rw [h2, flmGo_skip tb data i hlonger (data.length - i) (by omega)]
  obtain ⟨i', rfl⟩ : ∃ i', i = i' + 1 := ⟨i - 1, by omega⟩
  simp only [flmGo, hmouse, Bool.false_eq_true, if_false, hpaste, hnoend]

/-- Witness for `paste_wait_amended`: the start marker plus `"hi"` yields
`Paste("hi")` and an empty remaining buffer. -/
theorem paste_wait_amended_witness :
    findLongestMatch specTables ['\x1b', '[', '2', '0', '0', '~', 'h', 'i'] =
      Except.ok ([IEvent.paste ['h', 'i']], []) :=
  paste_wait_amended specTables ['\x1b', '[', '2', '0', '0', '~', 'h', 'i'] 6
    (by decide) (by decide) (by decide) (by decide) (by decide) (by decide)

/-! ## Canvas normalization: `Widget.normalize_canvas`
(`widgets/widget.py:185-227`)

The canvas is a function over cell coordinates; `character_width` (a
vectorized `wcwidth`, from `utils.py`, not among the embedded sources) is a
parameter.  The python mutates `self.canvas` in place and raises
`ValueError`; the embedding threads the buffer explicitly and returns
`.error buf` carrying the buffer state at the moment of the raise. -/

/-- The zero-width space `chr(0x200B)` written after each full-width
character. -/
def zwsp : Char := Char.ofNat 0x200B

/-- The first mutation of `normalize_canvas`
(`widget.py:217`): every zero-width character is replaced with
`default_char`.  The width mask is computed from the original canvas. -/
def canvasStep1 (charWidth : Char → Nat) (defaultChar : Char)
    (canvas : Nat → Nat → Char) : Nat → Nat → Char :=
  fun y x => if charWidth (canvas y x) = 0 then defaultChar else canvas y x

/-- `np.argwhere(char_widths == 2)` in row-major order, on the original
canvas (the widths are computed before any mutation). -/
def fullwidthPositions (charWidth : Char → Nat) (canvas : Nat → Nat → Char)
    (h w : Nat) : List (Nat × Nat) :=
  (List.range h).flatMap (fun y =>
    (List.range w).filterMap (fun x =>
      if charWidth (canvas y x) = 2 then some (y, x) else none))

/-- Point update of a canvas function. -/
def updCell (cv : Nat → Nat → Char) (y x : Nat) (c : Char) : Nat → Nat → Char :=
  fun y' x' => if y' = y ∧ x' = x then c else cv y' x'

/-- The `for y, x in where_fullwidth` loop of `normalize_canvas`
(`widget.py:220-227`): raise if the full-width character is on the last
column or followed by a non-default character, else write a zero-width
space after it.  `.error cv` is the `ValueError`, carrying the buffer as
mutated so far. -/
def normGo (w : Nat) (defaultChar : Char) :
    List (Nat × Nat) → (Nat → Nat → Char) →
    Except (Nat → Nat → Char) (Nat → Nat → Char)
  | [], cv => Except.ok cv
  | (y, x) :: rest, cv =>
    if x = w - 1 then Except.error cv
    else if cv y (x + 1) ≠ defaultChar then Except.error cv
    else normGo w defaultChar rest (updCell cv y (x + 1) zwsp)

/-- Embedding of `Widget.normalize_canvas` (`widget.py:185-227`) on an
`h × w` canvas. -/
def normalizeCanvas (charWidth : Char → Nat) (defaultChar : Char) (h w : Nat)
    (canvas : Nat → Nat → Char) :
    Except (Nat → Nat → Char) (Nat → Nat → Char) :=
  normGo w defaultChar (fullwidthPositions charWidth canvas h w)
    (canvasStep1 charWidth defaultChar canvas)

/-- `True` exactly on the python `raise` outcome. -/
def isErr {α β : Type} : Except α β → Bool
  | Except.error _ => true
  | Except.ok _ => false

/-- The buffer regardless of outcome (for the in-place python mutation,
the state of `self.canvas` after the call, raise or not). -/
def exceptBuf (e : Except (Nat → Nat → Char) (Nat → Nat → Char)) :
    Nat → Nat → Char :=
  match e with
  | Except.error c => c
  | Except.ok c => c

/-- Modelled from the spec: a concrete character-width assignment (the
`character_width`/`wcwidth` table is external): `世` is a full-width
grapheme, the zero-width space is the zero-width continuation marker, and
everything else is half-width. -/
def specCharWidth : Char → Nat :=
  fun c => if c = '世' then 2 else if c = zwsp then 0 else 1

/-- The 1×4 counterexample canvas `['世', ' ', '世', 'a']`: the first
full-width placement is well-formed, the second is followed by a
non-default `'a'`. -/
def cexCanvas : Nat → Nat → Char :=
  fun y x =>
    if y = 0 then
      if x = 0 then '世'
      else if x = 1 then ' '
      else if x = 2 then '世'
      else if x = 3 then 'a'
      else ' '
    else ' '

/-- C7 counterexample: on the canvas `['世', ' ', '世', 'a']` (default
char `' '`), `normalize_canvas` raises as the claim says — but the buffer
is not left unchanged: the loop already wrote a zero-width space into cell
`(0, 1)` before reaching the malformed placement, so there is no error
atomicity. -/
theorem normalize_canvas_claim_counterexample :
    isErr (normalizeCanvas specCharWidth ' ' 1 4 cexCanvas) = true ∧
    exceptBuf (normalizeCanvas specCharWidth ' ' 1 4 cexCanvas) 0 1 = zwsp ∧
    cexCanvas 0 1 = ' ' ∧ zwsp ≠ ' ' := by
  refine ⟨rfl, rfl, rfl, by decide⟩

lemma normGo_err (w : Nat) (defaultChar : Char) (y x : Nat) :
    ∀ (ps : List (Nat × Nat)) (cv : Nat → Nat → Char), ps.Nodup →
      (y, x) ∈ ps → (x = w - 1 ∨ cv y (x + 1) ≠ defaultChar) →
      isErr (normGo w defaultChar ps cv) = true := by
  intro ps
  induction ps with
  | nil =>
    intro cv _ hmem _
    cases hmem
  | cons p rest ih =>
    intro cv hnd hmem hbad
    rcases p with ⟨py, px⟩
    simp only [normGo]
    by_cases h1 : px = w - 1
    · rw [if_pos h1]
      rfl
    · rw [if_neg h1]
      by_cases h2 : cv py (px + 1) ≠ defaultChar
      · rw [if_pos h2]
        rfl
      · rw [if_neg h2]
        have hne : (y, x) ≠ (py, px) := by
          intro hEq
          cases hEq
          rcases hbad with hb | hb
          · exact h1 hb
          · exact h2 hb
        have hmem' : (y, x) ∈ rest := by
          rcases List.mem_cons.mp hmem with hh | ht
          · exact absurd hh hne
          · exact ht
        apply ih (updCell cv py (px + 1) zwsp) (List.nodup_cons.mp hnd).2 hmem'
        rcases hbad with hb | hb
        · exact Or.inl hb
        · refine Or.inr ?_
          have hcond : ¬(y = py ∧ x = px) := by
            intro hc
            exact hne (by rw [hc.1, hc.2])
          simpa [updCell, hcond] using hb

lemma fullwidthPositions_nodup (charWidth : Char → Nat)
    (canvas : Nat → Nat → Char) (h w : Nat) :
    (fullwidthPositions charWidth canvas h w).Nodup := by
  have hrow : ∀ y : Nat, ((List.range w).filterMap (fun x =>
      if charWidth (canvas y x) = 2 then some (y, x) else none)).Nodup := by
    intro y
    apply List.Nodup.filterMap
    · intro a a' b hb hb'
      have ha : (y, a) = b := by
        by_cases hc : charWidth (canvas y a) = 2
        · simpa [hc] using hb
        · simp [hc] at hb
      have ha' : (y, a') = b := by
        by_cases hc : charWidth (canvas y a') = 2
        · simpa [hc] using hb'
        · simp [hc] at hb'
      exact (Prod.ext_iff.mp (ha.trans ha'.symm)).2
    · exact List.nodup_range w
  have hfst : ∀ (y : Nat) (p : Nat × Nat),
      p ∈ (List.range w).filterMap (fun x =>
        if charWidth (canvas y x) = 2 then some (y, x) else none) → p.1 = y := by
    intro y p hp
    rcases List.mem_filterMap.mp hp with ⟨a, _, ha⟩
    by_cases hc : charWidth (canvas y a) = 2
    · rw [if_pos hc] at ha
      cases ha
      rfl
    · rw [if_neg hc] at ha
      cases ha
  unfold fullwidthPositions
  have : ∀ l : List Nat, l.Nodup → (l.flatMap (fun y =>
      (List.range w).filterMap (fun x =>
        if charWidth (canvas y x) = 2 then some (y, x) else none))).Nodup := by
    intro l
    induction l with
    | nil => intro _; simp
    | cons a l ihl =>
      intro hnd
      rw [List.flatMap_cons, List.nodup_append]
      refine ⟨hrow a, ihl (List.nodup_cons.mp hnd).2, ?_⟩
      intro p hpa hpl
      have h1 : p.1 = a := hfst a p hpa
      rcases List.mem_flatMap.mp hpl with ⟨y', hy', hp'⟩
      have h2 : p.1 = y' := hfst y' p hp'
      exact (List.nodup_cons.mp hnd).1 (h1 ▸ h2 ▸ hy')
  exact this (List.range h) (List.nodup_range h)

lemma fullwidthPositions_mem (charWidth : Char → Nat)
    (canvas : Nat → Nat → Char) (h w y x : Nat) (hy : y < h) (hx : x < w)
    (hfw : charWidth (canvas y x) = 2) :
    (y, x) ∈ fullwidthPositions charWidth canvas h w := by
  unfold fullwidthPositions
  refine List.mem_flatMap.mpr ⟨y, List.mem_range.mpr hy, ?_⟩
  refine List.mem_filterMap.mpr ⟨x, List.mem_range.mpr hx, ?_⟩
  rw [if_pos hfw]

/-- C7 (amended): `normalize_canvas` signals a `ValueError` to the caller
whenever the canvas has a full-width grapheme on the last column, or a
full-width grapheme whose following cell is neither the default character
nor a zero-width character (zero-width followers are first replaced by the
default and then accepted).  The buffer is however not left unchanged on
error: cells processed before the malformed placement may already have
been rewritten (zero-width characters replaced by the default, zero-width
spaces inserted after earlier full-width characters). -/
theorem normalize_canvas_amended (charWidth : Char → Nat) (defaultChar : Char)
    (h w : Nat) (canvas : Nat → Nat → Char) (y x : Nat)
    (hy : y < h) (hx : x < w) (hfw : charWidth (canvas y x) = 2)
    (hbad : x = w - 1 ∨
      (canvas y (x + 1) ≠ defaultChar ∧ charWidth (canvas y (x + 1)) ≠ 0)) :
    isErr (normalizeCanvas charWidth defaultChar h w canvas) = true := by
  unfold normalizeCanvas
  apply normGo_err w defaultChar y x (fullwidthPositions charWidth canvas h w)
    (canvasStep1 charWidth defaultChar canvas)
    (fullwidthPositions_nodup charWidth canvas h w)
    (fullwidthPositions_mem charWidth canvas h w y x hy hx hfw)
  rcases hbad with hb | hb
  · exact Or.inl hb
  · refine Or.inr ?_
    simp only [canvasStep1, if_neg hb.2]
    exact hb.1

/-- Witness for `normalize_canvas_amended`: a 1×1 canvas holding a single
full-width character (necessarily on the last column) is rejected. -/
theorem normalize_canvas_amended_witness :
    isErr (normalizeCanvas specCharWidth ' ' 1 1 (fun _ _ => '世')) = true :=
  normalize_canvas_amended specCharWidth ' ' 1 1 (fun _ _ => '世') 0 0
    (by decide) (by decide) (by decide) (Or.inl rfl)

end Batgrl
